import Mathlib

/-!
Verification of `scripts/refresh_hex_arch_inventories.py` and
`scripts/inventory_unhandled_request_payloads.py`.

Strings are embedded as `List Char`.  File system reads are embedded by
passing the list of `(path, contents)` pairs (resp. the already-read text)
to the pure function that the script applies to them; everything after the
read is translated directly from the source.  Regular expressions are
embedded as explicit scanners whose semantics is derived, construct by
construct, from the semantics of the concrete pattern in the source; the
derivation is documented at each definition.  The character classes `\s`
and `\w` of the CPython regex engine are Unicode aware; the embedding
models their ASCII fragment, which covers the source trees the scripts
are written for.
-/

set_option maxHeartbeats 1000000

namespace Spec2Proof

/-- Python whitespace class `\s`, restricted to the ASCII range. -/
def pyWs (c : Char) : Bool :=
  c = ' ' || c = '\t' || c = '\n' || c = '\r' || c = '\x0b' || c = '\x0c'

/-- Python `str.rstrip()` with no argument: drop trailing whitespace. -/
def pyRstrip (s : List Char) : List Char :=
  (s.reverse.dropWhile pyWs).reverse

/-- Python `str.strip()` with no argument: drop whitespace at both ends. -/
def pyStrip (s : List Char) : List Char :=
  (pyRstrip s).dropWhile pyWs

/-- Python substring test `needle in hay`. -/
def containsSub : List Char → List Char → Bool
  | [], needle => needle.isEmpty
  | c :: t, needle => needle.isPrefixOf (c :: t) || containsSub t needle

/-- Python `text.split(chr(10))`: split a string into its lines.  A text is
recovered from its lines by joining with a newline, so the last line has no
terminator and an empty text yields the single empty line. -/
def splitLines : List Char → List (List Char)
  | [] => [[]]
  | c :: t =>
    if c = '\n' then [] :: splitLines t
    else
      match splitLines t with
      | [] => [[c]]
      | l :: ls => (c :: l) :: ls

/-- Inverse of `splitLines`: interleave a newline between the lines. -/
def joinLines : List (List Char) → List Char
  | [] => []
  | [l] => l
  | l :: ls => l ++ '\n' :: joinLines ls

/-!
Block splicer, from `replace_block` (refresh_hex_arch_inventories.py,
lines 301 to 318).  The source builds the literal marker lines
`%% LABEL %%` and `%% /LABEL %%` and then substitutes, with `count=1`, the
pattern

  `(?ms)^START\s*n  .*?  ^\s*END\s*$`      (with `n` the escaped newline)

where START and END are the escaped marker strings.  Over a text viewed as
its list of lines, and for markers that contain no newline and start with a
character that is not whitespace (they always start with a percent sign),
the leftmost match of this pattern is characterised as follows.

* The match begins at a line start (anchor `^`), immediately followed by
  the literal START; `\s*` then the mandatory newline force the remainder
  of that line to be whitespace only.  So the match begins at the first
  line `a` that consists of START plus trailing whitespace AND from which
  the rest of the pattern can complete, which (since the lazy `.*?`
  absorbs anything including newlines) holds exactly when some later line
  consists of whitespace, then the literal END, then whitespace.
* The lazy `.*?` makes the match interior end at the first such END line
  `b` after `a`.
* The trailing `\s*$` is greedy: after END and the whitespace tail of line
  `b` it keeps absorbing entire whitespace-only lines, stopping (because
  `$` in multiline mode only matches before a newline or at the end) at
  the end of the last whitespace-only line following `b`.  The final
  newline of the absorbed region is not consumed (`$` sits before it).

The substitution replaces the matched span by
`START + n + n + rstrip(replacement) + n + n + END`; with `count=1` the
number of substitutions `n` is 0 or 1, and the source raises a
RuntimeError (modelled by `none`) when it is 0.
-/

/-- Marker line built by the source: `%% LABEL %%`. -/
def mkStart (marker : List Char) : List Char :=
  "%% ".toList ++ marker ++ " %%".toList

/-- Closing marker line built by the source: `%% /LABEL %%`. -/
def mkEnd (marker : List Char) : List Char :=
  "%% /".toList ++ marker ++ " %%".toList

/-- A line on which `^START\s*\n` can match: the literal start marker at
column 0 with only whitespace after it. -/
def isStartLine (sm line : List Char) : Bool :=
  sm.isPrefixOf line && (line.drop sm.length).all pyWs

/-- A line on which `^\s*END\s*$` can match: whitespace, the literal end
marker, then whitespace.  The split point of the leading whitespace run is
searched explicitly, mirroring the backtracking of `\s*`. -/
def isEndLine (em line : List Char) : Bool :=
  (List.range (line.length + 1)).any fun k =>
    (line.take k).all pyWs && em.isPrefixOf (line.drop k) &&
      ((line.drop k).drop em.length).all pyWs

/-- Index of the line where the leftmost match of the block pattern
begins: the first start-marker line that is followed by some end-marker
line. -/
def findStartIdx (sm em : List Char) : List (List Char) → Option Nat
  | [] => none
  | l :: rest =>
    if isStartLine sm l && rest.any (isEndLine em) then some 0
    else (findStartIdx sm em rest).map (· + 1)

/-- Index of the first end-marker line (the lazy `.*?` stops there). -/
def findEndIdx (em : List Char) : List (List Char) → Option Nat
  | [] => none
  | l :: rest =>
    if isEndLine em l then some 0
    else (findEndIdx em rest).map (· + 1)

/-- A line consisting of whitespace only (absorbed by the trailing
greedy `\s*$`). -/
def allWsLine (l : List Char) : Bool := l.all pyWs

/-- The single substitution performed by `pattern.subn(repl, text, count=1)`
on the line list, `none` when the pattern does not match (the source then
raises RuntimeError). -/
def spliceLines (sm em repl : List Char) (ls : List (List Char)) :
    Option (List (List Char)) :=
  (findStartIdx sm em ls).bind fun a =>
    (findEndIdx em (ls.drop (a + 1))).map fun i =>
      ls.take a ++ [sm] ++ [[]] ++ splitLines (pyRstrip repl) ++ [[]] ++ [em]
        ++ ((ls.drop (a + 1)).drop (i + 1)).dropWhile allWsLine

/-- The function `replace_block(text, start_marker, end_marker, replacement)`.
Returns `none` where the source raises RuntimeError. -/
def replace_block (text startMarker endMarker replacement : List Char) :
    Option (List Char) :=
  (spliceLines (mkStart startMarker) (mkEnd endMarker) replacement
      (splitLines text)).map joinLines

/-!
Declaration scanner, from `PUB_DECL_RE` / `collect_public_items`
(lines 39 to 72) and the inline pattern of `collect_public_type_names`
(lines 242 to 256).  The patterns are

  `(?m)^\s*pub\s+(trait|struct|enum|type)\s+([A-Za-z_][A-Za-z0-9_]*)\b`
  `(?m)^\s*pub\s+(?:struct|enum|type)\s+([A-Za-z_][A-Za-z0-9_]*)\b`

iterated with `finditer` (leftmost, non overlapping).  A match starts at a
line-start anchor; `\s*` is a maximal whitespace run (backtracking cannot
shorten it because no later literal starts with whitespace, so the
matching is deterministic), the keyword alternatives are mutually
non-prefix so at most one applies, both `\s+` runs are non-empty maximal
whitespace runs, the name is a maximal identifier run whose first
character is a letter or underscore, and the trailing `\b` always holds
after a maximal identifier run.  The scanner below walks the text once,
attempting a match at every line start and resuming after the matched
name, exactly as `finditer` does.  It is driven by a fuel argument so
that it is structurally recursive; `scanDecls` supplies `length + 1`
fuel, which `scanDeclsF_congr` shows is enough.
-/

/-- First character of `[A-Za-z_][A-Za-z0-9_]*`. -/
def identStart (c : Char) : Bool :=
  (decide ('A' ≤ c) && decide (c ≤ 'Z')) ||
  (decide ('a' ≤ c) && decide (c ≤ 'z')) || c = '_'

/-- Continuation character of `[A-Za-z_][A-Za-z0-9_]*`. -/
def identChar (c : Char) : Bool :=
  identStart c || (decide ('0' ≤ c) && decide (c ≤ '9'))

/-- Text after the literal `pub` that follows the leading `\s*`. -/
def declTail1 (cs : List Char) : List Char := (cs.dropWhile pyWs).drop 3

/-- Text after the `\s+` run that follows `pub`. -/
def declTail2 (cs : List Char) : List Char := (declTail1 cs).dropWhile pyWs

/-- Text after the `\s+` run that follows the matched kind keyword. -/
def declTail3 (k cs : List Char) : List Char :=
  ((declTail2 cs).drop k.length).dropWhile pyWs

/-- Attempt to match `\s*pub\s+(kind)\s+(name)` at a line start.  Returns
the matched kind, the matched name and the text following the match. -/
def matchDecl (kinds : List (List Char)) (cs : List Char) :
    Option (List Char × List Char × List Char) :=
  if "pub".toList.isPrefixOf (cs.dropWhile pyWs) then
    if ((declTail1 cs).takeWhile pyWs).isEmpty then none
    else
      match kinds.find? (fun k => k.isPrefixOf (declTail2 cs)) with
      | none => none
      | some k =>
        if (((declTail2 cs).drop k.length).takeWhile pyWs).isEmpty then none
        else
          match declTail3 k cs with
          | [] => none
          | c :: rest =>
            if identStart c then
              some (k, c :: rest.takeWhile identChar, rest.dropWhile identChar)
            else none
  else none

/-- One pass of `finditer` over the text: attempt a match at every line
start, resume after the matched name, otherwise advance one character.
The fuel argument makes the recursion structural; each step consumes at
least one character, so `length` fuel suffices (`scanDeclsF_congr`). -/
def scanDeclsF (kinds : List (List Char)) :
    Nat → List Char → Bool → List (List Char × List Char)
  | 0, _, _ => []
  | _ + 1, [], _ => []
  | fuel + 1, c :: t, atStart =>
    if atStart then
      match matchDecl kinds (c :: t) with
      | some (k, nm, rest) => (k, nm) :: scanDeclsF kinds fuel rest false
      | none => scanDeclsF kinds fuel t (c = '\n')
    else scanDeclsF kinds fuel t (c = '\n')

/-- All `(kind, name)` matches of the declaration pattern in a file, in
order, as produced by `finditer`. -/
def scanDecls (kinds : List (List Char)) (cs : List Char) :
    List (List Char × List Char) :=
  scanDeclsF kinds cs.length cs true

/-- A public item, from the `PubItem` dataclass (lines 32 to 36). -/
structure PubItem where
  name : List Char
  kind : List Char
  rel_path : List Char
deriving DecidableEq, Repr

/-- The four kind keywords of `PUB_DECL_RE`, in alternation order. -/
def pubDeclKinds : List (List Char) :=
  ["trait".toList, "struct".toList, "enum".toList, "type".toList]

/-- The three kind keywords of the `collect_public_type_names` pattern. -/
def dtoDeclKinds : List (List Char) :=
  ["struct".toList, "enum".toList, "type".toList]

/-- The function `collect_public_items`, applied to already-read files:
the directory walk is embedded as the list of `(relative path, contents)`
pairs it yields. -/
def collect_public_items (files : List (List Char × List Char)) : List PubItem :=
  files.flatMap fun file =>
    (scanDecls pubDeclKinds file.2).map fun m =>
      { name := m.2, kind := m.1, rel_path := file.1 }

/-- Insertion into a Python dict of lists, as done by
`out.setdefault(name, []).append(path)`: append to the existing entry,
keeping its position, or append a fresh entry at the end. -/
def addUsage (m : List (List Char × List (List Char))) (name path : List Char) :
    List (List Char × List (List Char)) :=
  match m with
  | [] => [(name, [path])]
  | e :: rest =>
    if e.1 == name then (e.1, e.2 ++ [path]) :: rest
    else e :: addUsage rest name path

/-- Python string comparison (lexicographic on code points). -/
def strLt : List Char → List Char → Bool
  | [], [] => false
  | [], _ :: _ => true
  | _ :: _, [] => false
  | x :: xs, y :: ys => if x < y then true else if x = y then strLt xs ys else false

/-- Boolean `le` mirroring Python `sorted` on strings. -/
def strLeB (x y : List Char) : Bool := strLt x y || x == y

/-- Stable insertion of `x` before the first element it is `le` to. -/
def insertLe (le : α → α → Bool) (x : α) : List α → List α
  | [] => [x]
  | y :: ys => if le x y then x :: y :: ys else y :: insertLe le x ys

/-- Python `sorted`: a stable sort by the given boolean `le`.  A stable
sort is determined by the order, so this insertion sort returns exactly
what the CPython sort returns. -/
def pySorted (le : α → α → Bool) : List α → List α
  | [] => []
  | x :: xs => insertLe le x (pySorted le xs)

/-- The function `collect_public_type_names` (lines 242 to 256), applied
to already-read files: accumulate `name -> paths` over all struct, enum
and type matches, then replace each path list by `sorted(set(...))`. -/
def collect_public_type_names (files : List (List Char × List Char)) :
    List (List Char × List (List Char)) :=
  (files.foldl (fun m file =>
      (scanDecls dtoDeclKinds file.2).foldl
        (fun m2 kn => addUsage m2 kn.2 file.1) m) []).map
    fun e => (e.1, pySorted strLeB e.2.dedup)

/-- Keys of a dict embedded as an association list. -/
def dictKeys (m : List (List Char × List (List Char))) : List (List Char) :=
  m.map (·.1)

/-- Python `dict.get(k, [])`. -/
def dictGet (m : List (List Char × List (List Char))) (k : List Char) :
    List (List Char) :=
  (m.lookup k).getD []


/-!
Taxonomy classifier, from `is_boundary_path` / `suggest_port_target`
(lines 131 to 159), and the DTO owner heuristic `suggest_dto_owner`
(lines 259 to 265).
-/

/-- The function `is_boundary_path`: does any of the five boundary
directory tokens occur in the path string. -/
def is_boundary_path (path : List Char) : Bool :=
  ["/application/handlers/".toList,
   "/application/request_handlers/".toList,
   "/application/requests/".toList,
   "/presentation/".toList,
   "/routes/".toList].any fun token => containsSub path token

/-- The function `suggest_port_target`. -/
def suggest_port_target (item_name : List Char) (usage_paths : List (List Char)) :
    List Char :=
  if item_name == "RequestContext".toList || item_name == "UseCaseContext".toList then
    "inbound (boundary DTO)".toList
  else if item_name == "RequestHandler".toList then
    "inbound (boundary trait)".toList
  else if "UseCasePort".toList.isSuffixOf item_name then
    "inbound".toList
  else if !usage_paths.isEmpty && !(usage_paths.all is_boundary_path) then
    "outbound (misplaced today)".toList
  else
    "inbound".toList

/-- The function `suggest_dto_owner`. -/
def suggest_dto_owner (type_name : List Char) : List Char :=
  if containsSub type_name "Queue".toList || type_name == "LlmResponse".toList then
    "engine-dto (likely internal glue)".toList
  else if containsSub type_name "Proposal".toList || type_name == "ApprovalItem".toList then
    "engine-ports (likely boundary DTO)".toList
  else
    "TBD".toList

/-!
Table renderer, from `render_table` inside `render_port_taxonomy_block`
(lines 162 to 239) and `render_dto_ownership_block` (lines 268 to 298).
The file-system scans at the top of the two block renderers are embedded
by passing their results (item lists and usage dicts) as arguments; the
rest is translated directly.
-/

/-- Python `", ".join(entries)`. -/
def joinCommaSpace : List (List Char) → List Char
  | [] => []
  | [x] => x
  | x :: rest => x ++ ", ".toList ++ joinCommaSpace rest

/-- The overflow suffix ` (+K more)`. -/
def moreSuffix (k : Nat) : List Char :=
  " (+".toList ++ (Nat.repr k).toList ++ " more)".toList

/-- Example cell of the port taxonomy table (lines 193 to 198): empty cell
for no usages, else first three paths and an overflow suffix past three. -/
def usedDisp (used : List (List Char)) : List Char :=
  if used.isEmpty then []
  else
    joinCommaSpace (used.take 3) ++
      (if used.length > 3 then moreSuffix (used.length - 3) else [])

/-- Example cell of the DTO ownership table (lines 285 to 286): first two
paths and an overflow suffix past two. -/
def dtoDisp (locs : List (List Char)) : List Char :=
  joinCommaSpace (locs.take 2) ++
    (if locs.length > 2 then moreSuffix (locs.length - 2) else [])

/-- Modelled from the spec: an example-path cell shows at most `k`
entries, followed by ` (+K more)` exactly when the full list has more
than `k` entries, with `K` the count of omitted entries; an empty list
renders as an empty cell.  Used to compare the two concrete cell
renderers against the one cell format the spec describes. -/
def cellSpec (k : Nat) (paths : List (List Char)) : List Char :=
  if paths = [] then []
  else
    joinCommaSpace (paths.take k) ++
      (if k < paths.length then moreSuffix (paths.length - k) else [])

/-- Tuple order on `(name, rel_path)` used by `index_defs`
(`sorted(items, key=lambda x: (x.name, x.rel_path))`). -/
def pairLe (x y : PubItem) : Bool :=
  strLt x.name y.name || (x.name == y.name && strLeB x.rel_path y.rel_path)

/-- The helper `index_defs`: sort by `(name, rel_path)`, keep the first
definition per name, in insertion order. -/
def index_defs (items : List PubItem) : List (List Char × PubItem) :=
  (pySorted pairLe items).foldl
    (fun acc it =>
      if acc.any (fun e => e.1 == it.name) then acc else acc ++ [(it.name, it)])
    []

/-- Header of the port taxonomy table. -/
def taxonomyHeader : List Char :=
  ("| Item | Kind | Defined in | Used in app/UI (examples) | Suggested target | Notes |\n"
    ++ "|---|---|---|---|---|---|\n").toList

/-- The inner function `render_table` (lines 188 to 217). -/
def render_table (defs : List (List Char × PubItem))
    (usage : List (List Char × List (List Char))) : List Char :=
  taxonomyHeader ++
    (pySorted strLeB (defs.map (fun e => e.1))).flatMap fun name =>
      match defs.lookup name with
      | none => []
      | some it =>
        let used := dictGet usage name
        let suggested := suggest_port_target name used
        let notes :=
          if "outbound".toList.isPrefixOf suggested then
            "Move to outbound; update app deps; remove inbound re-export".toList
          else if containsSub suggested "boundary".toList then
            "Keep in inbound; ensure it does not leak into services".toList
          else
            "Keep in inbound; ensure only adapters/UI import".toList
        "| `".toList ++ name ++ "` | ".toList ++ it.kind ++ " | ".toList
          ++ it.rel_path ++ " | ".toList ++ usedDisp used ++ " | ".toList
          ++ suggested ++ " | ".toList ++ notes ++ " |\n".toList

/-- Placeholder emitted instead of the engine table when no engine
inbound items were found (line 226; note the trailing blank). -/
def enginePlaceholder : List Char :=
  "_No engine inbound items found (unexpected)._ ".toList

/-- Placeholder emitted instead of the player table (line 234). -/
def playerPlaceholder : List Char :=
  "_No player inbound items found (unexpected)._ ".toList

/-- Shared closing line of both blocks. -/
def regenLine : List Char :=
  "_Regenerate with `task arch:inventories`._".toList

/-- The `out_lines` list built by `render_port_taxonomy_block`
(lines 219 to 237), with the scan results passed in. -/
def render_port_taxonomy_lines (engineItems playerItems : List PubItem)
    (engineUsage playerUsage : List (List Char × List (List Char))) :
    List (List Char) :=
  ["#### Engine inbound taxonomy".toList, []] ++
  [if (index_defs engineItems).isEmpty then enginePlaceholder
   else pyRstrip (render_table (index_defs engineItems) engineUsage)] ++
  [[], "#### Player inbound taxonomy".toList, []] ++
  [if (index_defs playerItems).isEmpty then playerPlaceholder
   else pyRstrip (render_table (index_defs playerItems) playerUsage)] ++
  [[], regenLine]

/-- The full port taxonomy block string (line 239):
`"\n".join(out_lines).strip() + "\n"`. -/
def render_port_taxonomy_block (engineItems playerItems : List PubItem)
    (engineUsage playerUsage : List (List Char × List (List Char))) : List Char :=
  pyStrip (joinLines
    (render_port_taxonomy_lines engineItems playerItems engineUsage playerUsage))
    ++ ['\n']

/-- The collision list of `render_dto_ownership_block` (line 275):
`sorted(set(dto_types.keys()) & set(port_types.keys()))`. -/
def dto_collisions (d p : List (List Char × List (List Char))) : List (List Char) :=
  pySorted strLeB (((dictKeys d).dedup).filter fun n => decide (n ∈ dictKeys p))

/-- Fixed remediation note of every collision row (line 289). -/
def dtoNotes : List Char :=
  "Pick one canonical definition; delete the shadow copy; migrate imports".toList

/-- One row of the DTO ownership table (lines 281 to 290). -/
def dtoRowLine (d p : List (List Char × List (List Char))) (name : List Char) :
    List Char :=
  "| `".toList ++ name ++ "` | ".toList ++ dtoDisp (dictGet d name)
    ++ " | ".toList ++ dtoDisp (dictGet p name) ++ " | ".toList
    ++ suggest_dto_owner name ++ " | ".toList ++ dtoNotes ++ " |".toList

/-- Placeholder row emitted when there are no collisions (line 293). -/
def dtoNoneRow : List Char := "| _(none)_ |  |  |  |  |".toList

/-- The `lines` list built by `render_dto_ownership_block`
(lines 277 to 296), with the two scans passed in. -/
def render_dto_ownership_lines (d p : List (List Char × List (List Char))) :
    List (List Char) :=
  ["| Type name | engine-dto (examples) | engine-ports (examples) | Suggested owner | Notes |".toList,
   "|---|---|---|---|---|".toList] ++
  (dto_collisions d p).map (dtoRowLine d p) ++
  (if dto_collisions d p = [] then [dtoNoneRow] else []) ++
  [[], regenLine]

/-- The full DTO ownership block string (line 298). -/
def render_dto_ownership_block (d p : List (List Char × List (List Char))) :
    List Char :=
  pyStrip (joinLines (render_dto_ownership_lines d p)) ++ ['\n']

/-!
Entry point, from `main` (lines 321 to 349).  The file read and the two
block renderers are embedded by passing the original document text and
the two freshly rendered block strings; the model returns what the process
does afterwards: whether it writes, the resulting content of the target
document, and the exit code.  `none` models the uncaught RuntimeError
raised by `replace_block` (a non-zero process exit before any write).
-/

/-- Outcome of a run of `main`. -/
structure MainResult where
  wrote : Bool
  fileContent : List Char
  exitCode : Nat
deriving DecidableEq, Repr

/-- The spliced document computed by the two `replace_block` calls of
`main` (lines 335 to 337). -/
def renderedDoc (original portBlock dtoBlock : List Char) : Option (List Char) :=
  (replace_block original "PORT TAXONOMY".toList "PORT TAXONOMY".toList
      portBlock).bind fun u1 =>
    replace_block u1 "DTO OWNERSHIP".toList "DTO OWNERSHIP".toList dtoBlock

/-- The function `main` (lines 321 to 349) after the renders: compare,
then return, check, or write. -/
def main_model (check : Bool) (original portBlock dtoBlock : List Char) :
    Option MainResult :=
  (renderedDoc original portBlock dtoBlock).map fun updated =>
    if updated = original then ⟨false, original, 0⟩
    else if check then ⟨false, original, 1⟩
    else ⟨true, updated, 0⟩


/-!
Variant inventory, from `parse_request_payload_variants`
(inventory_unhandled_request_payloads.py, lines 7 to 28).  The source
finds the literal header `pub enum RequestPayload`, slices from there,
slices past the first opening brace (when `find` returns -1 the slice
`body[-1 + 1:]` leaves the text unchanged), truncates at the start of the
leftmost match of `\n}\s*\n` (a newline, a closing brace, whitespace up
to and including a newline), and runs
`findall(r"^\s{4}([A-Z][A-Za-z0-9_]*)\b", body, re.M)`: at a line start,
exactly four whitespace characters, then a maximal identifier starting
with an uppercase letter (the `\b` always holds after a maximal run).
The two `SystemExit` aborts are modelled by `none`.
-/

/-- Python `hay.find(needle)`, returning the suffix of `hay` that starts
at the leftmost occurrence (`none` when `find` returns -1). -/
def findFrom (needle : List Char) : List Char → Option (List Char)
  | [] => if needle.isEmpty then some [] else none
  | c :: t => if needle.isPrefixOf (c :: t) then some (c :: t) else findFrom needle t

/-- The slice `body[body.find(chr(123)) + 1:]`; when there is no opening
brace `find` yields -1 and the slice `[0:]` leaves the text unchanged. -/
def afterBrace (body0 : List Char) : List Char :=
  match findFrom ['\x7b'] body0 with
  | some suf => suf.drop 1
  | none => body0

/-- Can `\s*\n` match here: a whitespace run ending at a newline. -/
def hasWsThenNewline : List Char → Bool
  | [] => false
  | c :: t => if c = '\n' then true else if pyWs c then hasWsThenNewline t else false

/-- Does the match `\n}\s*\n` start at this position. -/
def closeBraceAt : List Char → Bool
  | '\n' :: '\x7d' :: rest => hasWsThenNewline rest
  | _ => false

/-- Truncation `body[: m.start()]` at the leftmost `\n}\s*\n` match,
`none` when the pattern does not occur. -/
def truncAtCloseBrace : List Char → Option (List Char)
  | [] => none
  | c :: t =>
    if closeBraceAt (c :: t) then some []
    else (truncAtCloseBrace t).map (fun r => c :: r)

/-- Attempt to match `\s{4}([A-Z][A-Za-z0-9_]*)\b` at a line start:
exactly four whitespace characters, then a maximal identifier run whose
first character is an uppercase letter. -/
def matchVariant : List Char → Option (List Char × List Char)
  | c1 :: c2 :: c3 :: c4 :: c5 :: rest =>
    if pyWs c1 && pyWs c2 && pyWs c3 && pyWs c4 &&
        decide ('A' ≤ c5) && decide (c5 ≤ 'Z') then
      some (c5 :: rest.takeWhile identChar, rest.dropWhile identChar)
    else none
  | _ => none

/-- The `findall` pass with the multiline anchor, fuelled like
`scanDeclsF`. -/
def scanVariantsF : Nat → List Char → Bool → List (List Char)
  | 0, _, _ => []
  | _ + 1, [], _ => []
  | fuel + 1, c :: t, atStart =>
    if atStart then
      match matchVariant (c :: t) with
      | some (nm, rest) => nm :: scanVariantsF fuel rest false
      | none => scanVariantsF fuel t (c = '\n')
    else scanVariantsF fuel t (c = '\n')

/-- All variant matches of the truncated enum body, in order. -/
def scanVariants (cs : List Char) : List (List Char) :=
  scanVariantsF cs.length cs true

/-- The dedup loop of the source (lines 22 to 27): keep the first
occurrence of each name, in order. -/
def dedupLoop (seen : List (List Char)) : List (List Char) → List (List Char)
  | [] => []
  | v :: vs => if v ∈ seen then dedupLoop seen vs else v :: dedupLoop (v :: seen) vs

/-- The literal header the source searches for. -/
def enumHeader : List Char := "pub enum RequestPayload".toList

/-- Locating and truncating the enum body; `none` models the two
`SystemExit` aborts. -/
def enumBody (text : List Char) : Option (List Char) :=
  match findFrom enumHeader text with
  | none => none
  | some body0 => truncAtCloseBrace (afterBrace body0)

/-- The function `parse_request_payload_variants`. -/
def parse_request_payload_variants (text : List Char) :
    Option (List (List Char)) :=
  (enumBody text).map fun b => dedupLoop [] (scanVariants b)

/-!
General lemmas about the definitions above.
-/

theorem splitLines_ne_nil (t : List Char) : splitLines t ≠ [] := by
  induction t with
  | nil => simp [splitLines]
  | cons c t ih =>
    simp only [splitLines]
    split
    · simp
    · split <;> simp_all

theorem joinLines_cons (l : List Char) (ls : List (List Char)) (h : ls ≠ []) :
    joinLines (l :: ls) = l ++ '\n' :: joinLines ls := by
  cases ls with
  | nil => exact absurd rfl h
  | cons l2 ls2 => rfl

theorem joinLines_splitLines (t : List Char) : joinLines (splitLines t) = t := by
  induction t with
  | nil => rfl
  | cons c t ih =>
    simp only [splitLines]
    split
    · rename_i hc
      rw [joinLines_cons _ _ (splitLines_ne_nil t), ih, hc]
      rfl
    · rename_i hc
      cases hsp : splitLines t with
      | nil => exact absurd hsp (splitLines_ne_nil t)
      | cons l ls =>
        rw [hsp] at ih
        cases ls with
        | nil => simpa [joinLines] using ih
        | cons l2 ls2 =>
          rw [joinLines_cons _ _ (by simp)] at ih ⊢
          simpa using ih

theorem no_newline_of_mem_splitLines (t : List Char) :
    ∀ l ∈ splitLines t, '\n' ∉ l := by
  induction t with
  | nil => simp [splitLines]
  | cons c t ih =>
    simp only [splitLines]
    split
    · intro l hl
      rw [List.mem_cons] at hl
      rcases hl with hl | hl
      · simp [hl]
      · exact ih l hl
    · rename_i hc
      cases hsp : splitLines t with
      | nil => exact absurd hsp (splitLines_ne_nil t)
      | cons l ls =>
        rw [hsp] at ih
        intro m hm
        rw [List.mem_cons] at hm
        rcases hm with hm | hm
        · subst hm
          intro hmem
          rw [List.mem_cons] at hmem
          rcases hmem with h | h
          · exact hc h.symm
          · exact ih l (by simp) h
        · exact ih m (by simp [hm])

theorem splitLines_single (l : List Char) (h : '\n' ∉ l) : splitLines l = [l] := by
  induction l with
  | nil => rfl
  | cons c t ih =>
    simp only [splitLines]
    rw [if_neg (by intro hc; exact h (by simp [hc]))]
    rw [ih (by intro hm; exact h (by simp [hm]))]

theorem splitLines_append_newline (l rest : List Char) (h : '\n' ∉ l) :
    splitLines (l ++ '\n' :: rest) = l :: splitLines rest := by
  induction l with
  | nil => simp [splitLines]
  | cons c t ih =>
    simp only [List.cons_append, splitLines]
    rw [if_neg (by intro hc; exact h (by simp [hc]))]
    rw [show t.append ('\n' :: rest) = t ++ '\n' :: rest from rfl]
    rw [ih (by intro hm; exact h (by simp [hm]))]

theorem splitLines_joinLines (ls : List (List Char)) (h : ls ≠ [])
    (h2 : ∀ l ∈ ls, '\n' ∉ l) : splitLines (joinLines ls) = ls := by
  induction ls with
  | nil => exact absurd rfl h
  | cons l ls ih =>
    cases ls with
    | nil => simpa [joinLines] using splitLines_single l (h2 l (by simp))
    | cons l2 ls2 =>
      rw [joinLines_cons _ _ (by simp)]
      rw [splitLines_append_newline _ _ (h2 l (by simp))]
      rw [ih (by simp) (by intro m hm; exact h2 m (by simp [hm]))]

theorem length_le_of_isPrefixOf {l₁ l₂ : List Char} (h : l₁.isPrefixOf l₂) :
    l₁.length ≤ l₂.length := by
  induction l₁ generalizing l₂ with
  | nil => simp
  | cons a as ih =>
    cases l₂ with
    | nil => simp [List.isPrefixOf] at h
    | cons b bs =>
      simp only [List.isPrefixOf, Bool.and_eq_true] at h
      have := ih h.2
      simp only [List.length_cons]
      omega

theorem length_dropWhile_le (p : Char → Bool) (l : List Char) :
    (l.dropWhile p).length ≤ l.length :=
  (List.dropWhile_sublist p).length_le

theorem matchDecl_length {kinds : List (List Char)} {cs k nm rest : List Char}
    (h : matchDecl kinds cs = some (k, nm, rest)) : rest.length < cs.length := by
  unfold matchDecl at h
  split at h
  case isFalse => exact absurd h (by simp)
  case isTrue hpub =>
    split at h
    case isTrue => exact absurd h (by simp)
    case isFalse hws1 =>
      split at h
      case h_1 => exact absurd h (by simp)
      case h_2 kk hfind =>
        split at h
        case isTrue => exact absurd h (by simp)
        case isFalse hws2 =>
          split at h
          case h_1 => exact absurd h (by simp)
          case h_2 c rest5 hdrop =>
            split at h
            case isFalse => exact absurd h (by simp)
            case isTrue hident =>
              have hr : rest = rest5.dropWhile identChar := by
                have := congrArg (fun x => x.2.2) (Option.some.inj h)
                simpa using this.symm
              have h1 : rest.length ≤ rest5.length := by
                rw [hr]; exact length_dropWhile_le _ _
              have h2 : (c :: rest5).length ≤ (declTail2 cs).length := by
                rw [← hdrop]
                calc (declTail3 kk cs).length
                    ≤ ((declTail2 cs).drop kk.length).length :=
                      length_dropWhile_le _ _
                  _ ≤ (declTail2 cs).length := by
                      rw [List.length_drop]; omega
              have h3 : (declTail2 cs).length ≤ (declTail1 cs).length :=
                length_dropWhile_le _ _
              have h4 : (declTail1 cs).length = (cs.dropWhile pyWs).length - 3 :=
                List.length_drop 3 _
              have h5 : 3 ≤ (cs.dropWhile pyWs).length := by
                simpa using length_le_of_isPrefixOf hpub
              have h6 : (cs.dropWhile pyWs).length ≤ cs.length :=
                length_dropWhile_le _ _
              simp only [List.length_cons] at h2
              omega

theorem scanDeclsF_nil (kinds : List (List Char)) (f : Nat) (b : Bool) :
    scanDeclsF kinds f [] b = [] := by
  cases f <;> rfl

theorem scanDeclsF_congr (kinds : List (List Char)) :
    ∀ f1 : Nat, ∀ f2 : Nat, ∀ cs : List Char, ∀ b : Bool,
      cs.length ≤ f1 → cs.length ≤ f2 →
      scanDeclsF kinds f1 cs b = scanDeclsF kinds f2 cs b := by
  intro f1
  induction f1 with
  | zero =>
    intro f2 cs b h1 _
    have : cs = [] := List.length_eq_zero.mp (Nat.le_zero.mp h1)
    subst this
    rw [scanDeclsF_nil, scanDeclsF_nil]
  | succ f1 ih =>
    intro f2 cs b h1 h2
    cases cs with
    | nil => rw [scanDeclsF_nil, scanDeclsF_nil]
    | cons c t =>
      cases f2 with
      | zero => simp at h2
      | succ f2 =>
        simp only [List.length_cons] at h1 h2
        simp only [scanDeclsF]
        split
        · cases hm : matchDecl kinds (c :: t) with
          | none =>
            simp only []
            exact ih f2 t (c = '\n')
              (by simp at h1 ⊢; omega) (by simp at h2 ⊢; omega)
          | some m =>
            obtain ⟨k, nm, rest⟩ := m
            simp only []
            have hlen := matchDecl_length hm
            simp only [List.length_cons] at hlen
            rw [ih f2 rest false (by omega) (by omega)]
        · exact ih f2 t (c = '\n')
            (by simp at h1 ⊢; omega) (by simp at h2 ⊢; omega)

theorem count_dedup_beq (l : List (List Char)) (a : List Char) :
    l.dedup.count a = if a ∈ l then 1 else 0 := by
  induction l with
  | nil => simp
  | cons b t ih =>
    by_cases hb : b ∈ t
    · rw [List.dedup_cons_of_mem hb, ih]
      by_cases hat : a ∈ t
      · simp [hat, List.mem_cons]
      · have hnot : a ∉ b :: t := by
          rw [List.mem_cons]
          rintro (rfl | h)
          · exact hat hb
          · exact hat h
        simp [hat, hnot]
    · rw [List.dedup_cons_of_not_mem hb, List.count_cons, ih]
      by_cases hab : a = b
      · subst hab
        simp [hb]
      · have hba : ¬b = a := fun h => hab h.symm
        simp [hab, hba, List.mem_cons]

theorem insertLe_perm (le : α → α → Bool) (x : α) (l : List α) :
    List.Perm (insertLe le x l) (x :: l) := by
  induction l with
  | nil => exact List.Perm.refl _
  | cons y ys ih =>
    unfold insertLe
    split
    · exact List.Perm.refl _
    · exact (List.Perm.cons y ih).trans (List.Perm.swap x y ys)

theorem pySorted_perm (le : α → α → Bool) (l : List α) :
    List.Perm (pySorted le l) l := by
  induction l with
  | nil => exact List.Perm.refl _
  | cons x xs ih => exact (insertLe_perm le x (pySorted le xs)).trans (ih.cons x)

/-!
Claim theorems.
-/

/-- C4 counterexample: in the DTO ownership table a cell whose full list
has three entries does not show three entries, as the claim requires for
every rendered table; it shows two and the overflow suffix ` (+1 more)`. -/
theorem C4_counterexample :
    dtoDisp ["a".toList, "b".toList, "c".toList] = "a, b (+1 more)".toList
    ∧ dtoDisp ["a".toList, "b".toList, "c".toList]
        ≠ cellSpec 3 ["a".toList, "b".toList, "c".toList] := by
  constructor
  · decide
  · decide

/-- C4 (amended): the port taxonomy example cells show at most three
entries, with ` (+K more)` exactly when more than three exist and `K` the
omitted count, and an empty usage list gives an empty cell; the DTO
ownership example cells do the same with threshold two instead of three. -/
theorem C4_cell_formatting (paths : List (List Char)) :
    usedDisp paths = cellSpec 3 paths ∧ dtoDisp paths = cellSpec 2 paths := by
  constructor
  · unfold usedDisp cellSpec
    by_cases h : paths = []
    · subst h; simp
    · rw [if_neg (by simpa [List.isEmpty_iff] using h), if_neg h]
  · unfold dtoDisp cellSpec
    by_cases h : paths = []
    · subst h; simp [joinCommaSpace]
    · rw [if_neg h]

/-- C5: the boundary-DTO exception rule of `suggest_port_target` fires
first: for a name in the exception list the result is
`inbound (boundary DTO)` whatever the usage paths are. -/
theorem C5_boundary_dto_priority (name : List Char) (paths : List (List Char))
    (h : name = "RequestContext".toList ∨ name = "UseCaseContext".toList) :
    suggest_port_target name paths = "inbound (boundary DTO)".toList := by
  unfold suggest_port_target
  rcases h with h | h <;> subst h <;> rw [if_pos (by decide)]

/-- C5 witness: `RequestContext` with its single usage outside every
boundary directory is still classified as the boundary DTO. -/
theorem C5_boundary_dto_priority_witness :
    is_boundary_path "crates/engine/src/domain/world.rs".toList = false
    ∧ suggest_port_target "RequestContext".toList
        ["crates/engine/src/domain/world.rs".toList]
        = "inbound (boundary DTO)".toList :=
  ⟨by decide, C5_boundary_dto_priority _ _ (Or.inl rfl)⟩

/-- C6: for a name that avoids both exception lists and the use-case-port
suffix, `suggest_port_target` returns `outbound (misplaced today)` exactly
when the usage list is non-empty and some usage path fails the boundary
test, and `inbound` otherwise. -/
theorem C6_usage_location_rule (name : List Char) (paths : List (List Char))
    (h1 : name ≠ "RequestContext".toList) (h2 : name ≠ "UseCaseContext".toList)
    (h3 : name ≠ "RequestHandler".toList)
    (h4 : "UseCasePort".toList.isSuffixOf name = false) :
    suggest_port_target name paths =
      (if paths ≠ [] ∧ ∃ q ∈ paths, is_boundary_path q = false
       then "outbound (misplaced today)".toList
       else "inbound".toList) := by
  have e1 : (name == "RequestContext".toList || name == "UseCaseContext".toList)
      = false := by
    rw [Bool.or_eq_false_iff]
    exact ⟨beq_eq_false_iff_ne.mpr h1, beq_eq_false_iff_ne.mpr h2⟩
  have e2 : (name == "RequestHandler".toList) = false := beq_eq_false_iff_ne.mpr h3
  unfold suggest_port_target
  rw [if_neg (by rw [e1]; exact Bool.false_ne_true),
    if_neg (by rw [e2]; exact Bool.false_ne_true),
    if_neg (by rw [h4]; exact Bool.false_ne_true)]
  by_cases hc : paths ≠ [] ∧ ∃ q ∈ paths, is_boundary_path q = false
  · have hcond : (!paths.isEmpty && !paths.all is_boundary_path) = true := by
      obtain ⟨hne, q, hq, hqf⟩ := hc
      have h5 : paths.isEmpty = false := by
        rw [← Bool.not_eq_true, List.isEmpty_iff]; exact hne
      have h6 : paths.all is_boundary_path = false := by
        rw [List.all_eq_false]
        exact ⟨q, hq, by simp [hqf]⟩
      rw [h5, h6]; rfl
    rw [if_pos hcond, if_pos hc]
  · have hcond : (!paths.isEmpty && !paths.all is_boundary_path) = false := by
      push_neg at hc
      by_cases hp : paths = []
      · subst hp; rfl
      · have hall : paths.all is_boundary_path = true := by
          rw [List.all_eq_true]
          intro q hq
          simpa using hc hp q hq
        rw [hall]; simp
    rw [if_neg (by rw [hcond]; exact Bool.false_ne_true), if_neg hc]

/-- C6 witness: a plain name with one non-boundary usage is misplaced, and
the same name with no usages defaults to inbound. -/
theorem C6_usage_location_rule_witness :
    suggest_port_target "WorldService".toList
        ["crates/engine/src/services/world.rs".toList]
        = "outbound (misplaced today)".toList
    ∧ suggest_port_target "WorldService".toList [] = "inbound".toList := by
  constructor
  · rw [C6_usage_location_rule _ _ (by decide) (by decide) (by decide) (by decide)]
    decide
  · rw [C6_usage_location_rule _ _ (by decide) (by decide) (by decide) (by decide)]
    decide

/-- C8: a type name occurs in the collision list of the DTO ownership
table (whose rows are exactly `dto_collisions` mapped through
`dtoRowLine`) exactly once when it is declared as a public struct, enum
or type alias in both scanned roots, and not at all otherwise. -/
theorem C8_collision_iff_declared_in_both
    (filesD filesP : List (List Char × List Char)) (name : List Char) :
    (dto_collisions (collect_public_type_names filesD)
        (collect_public_type_names filesP)).count name
      = if name ∈ dictKeys (collect_public_type_names filesD)
            ∧ name ∈ dictKeys (collect_public_type_names filesP)
        then 1 else 0 := by
  unfold dto_collisions
  rw [List.count_eq_countP, List.Perm.countP_eq _ (pySorted_perm strLeB _),
    ← List.count_eq_countP]
  by_cases hp : name ∈ dictKeys (collect_public_type_names filesP)
  · rw [List.count_filter (by simpa using hp)]
    rw [count_dedup_beq]
    by_cases hd : name ∈ dictKeys (collect_public_type_names filesD)
    · simp [hd, hp]
    · simp [hd, hp]
  · have hnot : name ∉ (((dictKeys (collect_public_type_names filesD)).dedup).filter
        fun n => decide (n ∈ dictKeys (collect_public_type_names filesP))) := by
      intro hmem
      rw [List.mem_filter] at hmem
      exact hp (by simpa using hmem.2)
    rw [List.count_eq_zero.mpr hnot]
    simp [hp]

theorem matchDecl_name {kinds : List (List Char)} {cs k nm rest : List Char}
    (h : matchDecl kinds cs = some (k, nm, rest)) :
    nm ≠ [] ∧ identStart nm.headI = true ∧ nm.tail.all identChar = true := by
  unfold matchDecl at h
  split at h
  case isFalse => exact absurd h (by simp)
  case isTrue hpub =>
    split at h
    case isTrue => exact absurd h (by simp)
    case isFalse =>
      split at h
      case h_1 => exact absurd h (by simp)
      case h_2 kk hfind =>
        split at h
        case isTrue => exact absurd h (by simp)
        case isFalse =>
          split at h
          case h_1 => exact absurd h (by simp)
          case h_2 c rest5 hdrop =>
            split at h
            case isFalse => exact absurd h (by simp)
            case isTrue hident =>
              have hn : nm = c :: rest5.takeWhile identChar := by
                have := congrArg (fun x => x.2.1) (Option.some.inj h)
                simpa using this.symm
              subst hn
              exact ⟨by simp, by simpa using hident, by simp⟩

theorem scanDeclsF_name (kinds : List (List Char)) :
    ∀ f : Nat, ∀ cs : List Char, ∀ b : Bool, ∀ kn ∈ scanDeclsF kinds f cs b,
      kn.2 ≠ [] ∧ identStart kn.2.headI = true ∧ kn.2.tail.all identChar = true := by
  intro f
  induction f with
  | zero => intro cs b kn h; rw [scanDeclsF] at h; simp at h
  | succ f ih =>
    intro cs b kn h
    cases cs with
    | nil => rw [scanDeclsF_nil] at h; simp at h
    | cons c t =>
      rw [scanDeclsF] at h
      split at h
      · cases hm : matchDecl kinds (c :: t) with
        | none => rw [hm] at h; exact ih t (c = '\n') kn h
        | some m =>
          obtain ⟨k2, nm2, rest2⟩ := m
          rw [hm] at h
          simp only [] at h
          rw [List.mem_cons] at h
          rcases h with h | h
          · subst h
            exact matchDecl_name hm
          · exact ih rest2 false kn h
      · exact ih t (c = '\n') kn h

theorem dedupLoop_sublist (seen vs : List (List Char)) :
    (dedupLoop seen vs).Sublist vs := by
  induction vs generalizing seen with
  | nil => simp [dedupLoop]
  | cons v vs ih =>
    rw [dedupLoop]
    split
    · exact (ih seen).cons v
    · exact (ih (v :: seen)).cons₂ v

theorem mem_dedupLoop (seen vs : List (List Char)) (v : List Char) :
    v ∈ dedupLoop seen vs ↔ v ∈ vs ∧ v ∉ seen := by
  induction vs generalizing seen with
  | nil => simp [dedupLoop]
  | cons w ws ih =>
    rw [dedupLoop]
    split
    · rename_i hw
      rw [ih seen, List.mem_cons]
      constructor
      · rintro ⟨h1, h2⟩
        exact ⟨Or.inr h1, h2⟩
      · rintro ⟨h1, h2⟩
        rcases h1 with rfl | h1
        · exact absurd hw h2
        · exact ⟨h1, h2⟩
    · rename_i hw
      rw [List.mem_cons, ih (w :: seen)]
      constructor
      · rintro (rfl | ⟨h1, h2⟩)
        · exact ⟨List.mem_cons_self _ _, hw⟩
        · refine ⟨List.mem_cons_of_mem _ h1, fun hs => h2 ?_⟩
          exact List.mem_cons_of_mem _ hs
      · rintro ⟨h1, h2⟩
        rw [List.mem_cons] at h1
        rcases h1 with rfl | h1
        · exact Or.inl rfl
        · by_cases hvw : v = w
          · exact Or.inl hvw
          · refine Or.inr ⟨h1, ?_⟩
            rw [List.mem_cons]
            rintro (h | h)
            · exact hvw h
            · exact h2 h

theorem nodup_dedupLoop (seen vs : List (List Char)) :
    (dedupLoop seen vs).Nodup := by
  induction vs generalizing seen with
  | nil => simp [dedupLoop]
  | cons w ws ih =>
    rw [dedupLoop]
    split
    · exact ih seen
    · refine List.nodup_cons.mpr ⟨?_, ih (w :: seen)⟩
      intro hmem
      rw [mem_dedupLoop] at hmem
      exact hmem.2 (List.mem_cons_self _ _)

/-- C1 (evaluation at the failing input): the block pattern matches this
document twice (the second span alone is a complete match, second
conjunct), yet `replace_block` succeeds and silently rewrites only the
first span instead of raising the fatal error the claim requires; with
`count=1` the substitution count can never exceed 1, so the
`n != 1` check only fires for zero matches (third conjunct). -/
theorem C1_multiple_spans_first_replaced :
    replace_block
      "%% L %%\nA\n%% /L %%\nmid\n%% L %%\nB\n%% /L %%".toList
      "L".toList "L".toList "new".toList
      = some "%% L %%\n\nnew\n\n%% /L %%\nmid\n%% L %%\nB\n%% /L %%".toList
    ∧ replace_block "%% L %%\nB\n%% /L %%".toList "L".toList "L".toList
        "new".toList
      = some "%% L %%\n\nnew\n\n%% /L %%".toList
    ∧ replace_block "no markers".toList "L".toList "L".toList "new".toList
      = none := by
  refine ⟨by decide, by decide, by decide⟩

/-- C3 counterexample: a declaration whose name starts with a lowercase
letter is collected (the claim says only uppercase-initial names are
extracted and that `pub struct lower_case` yields no item). -/
theorem C3_counterexample :
    collect_public_items
      [("crates/x/src/lib.rs".toList, "pub struct lower_case".toList)]
      = [PubItem.mk "lower_case".toList "struct".toList
          "crates/x/src/lib.rs".toList] := by decide

/-- C3 (amended): every collected item has a name matching
`[A-Za-z_][A-Za-z0-9_]*`: a first character that is a letter of either
case or an underscore, then letters, digits or underscores. -/
theorem C3_collected_names (files : List (List Char × List Char))
    (it : PubItem) (h : it ∈ collect_public_items files) :
    it.name ≠ [] ∧ identStart it.name.headI = true
      ∧ it.name.tail.all identChar = true := by
  unfold collect_public_items at h
  rw [List.mem_flatMap] at h
  obtain ⟨file, hf, hm⟩ := h
  rw [List.mem_map] at hm
  obtain ⟨kn, hkn, heq⟩ := hm
  have hn := scanDeclsF_name pubDeclKinds file.2.length file.2 true kn hkn
  rw [← heq]
  simpa using hn

/-- C3 witness: the lowercase item collected from `pub struct lower_case`
satisfies the amended name shape. -/
theorem C3_collected_names_witness :
    (PubItem.mk "lower_case".toList "struct".toList
        "crates/x/src/lib.rs".toList).name ≠ []
    ∧ identStart (PubItem.mk "lower_case".toList "struct".toList
        "crates/x/src/lib.rs".toList).name.headI = true
    ∧ (PubItem.mk "lower_case".toList "struct".toList
        "crates/x/src/lib.rs".toList).name.tail.all identChar = true :=
  C3_collected_names
    [("crates/x/src/lib.rs".toList, "pub struct lower_case".toList)] _ (by decide)

/-- C7 counterexample: with empty scan results the port taxonomy renderer
emits its two italic placeholder lines and no table row at all: no line
of the rendered block starts with the table delimiter bar, so no "none
found" table row exists, contrary to the claim. -/
theorem C7_counterexample :
    enginePlaceholder ∈ render_port_taxonomy_lines [] [] [] []
    ∧ playerPlaceholder ∈ render_port_taxonomy_lines [] [] [] []
    ∧ ∀ l ∈ splitLines (render_port_taxonomy_block [] [] [] []),
        l.head? ≠ some '|' := by
  refine ⟨by decide, by decide, by decide⟩

/-- C7 (amended): on an empty overall result set the DTO ownership table
gets the single explicit `_(none)_` placeholder row, while the two port
taxonomy sections each get an explicit italic placeholder line in place
of their table. -/
theorem C7_empty_results (eu pu d p : List (List Char × List (List Char)))
    (hc : dto_collisions d p = []) :
    render_port_taxonomy_lines [] [] eu pu =
      ["#### Engine inbound taxonomy".toList, [], enginePlaceholder, [],
       "#### Player inbound taxonomy".toList, [], playerPlaceholder, [],
       regenLine]
    ∧ render_dto_ownership_lines d p =
      ["| Type name | engine-dto (examples) | engine-ports (examples) | Suggested owner | Notes |".toList,
       "|---|---|---|---|---|".toList, dtoNoneRow, [], regenLine] := by
  constructor
  · rfl
  · unfold render_dto_ownership_lines
    rw [hc]
    rfl

/-- C7 witness: two empty scans collide on nothing, and the rendered DTO
lines then contain the explicit placeholder row; the port side renders
its placeholder line. -/
theorem C7_empty_results_witness :
    dto_collisions [] [] = []
    ∧ dtoNoneRow ∈ render_dto_ownership_lines [] []
    ∧ enginePlaceholder ∈ render_port_taxonomy_lines [] [] [] [] := by
  refine ⟨by decide, ?_, ?_⟩
  · rw [(C7_empty_results [] [] [] [] (by decide)).2]
    decide
  · rw [(C7_empty_results [] [] [] [] (by decide)).1]
    decide

/-- C10 counterexample: the variant pattern uses `\s{4}`, not four
spaces: this text contains no four-space run at all (second conjunct),
its single variant is indented with tabs, and it is still returned. -/
theorem C10_counterexample :
    parse_request_payload_variants
      ("pub enum RequestPayload ".toList ++ '\x7b' :: '\n' :: '\t' :: '\t'
        :: '\t' :: '\t' :: "Alpha,\n".toList ++ '\x7d' :: '\n' :: [])
      = some ["Alpha".toList]
    ∧ containsSub
      ("pub enum RequestPayload ".toList ++ '\x7b' :: '\n' :: '\t' :: '\t'
        :: '\t' :: '\t' :: "Alpha,\n".toList ++ '\x7d' :: '\n' :: [])
      "    ".toList = false := by
  refine ⟨by decide, by decide⟩

/-- C10 (amended): when the header is missing, or the terminator pattern
(newline, closing brace, whitespace, newline) is missing after the body
start, the script aborts; otherwise it returns the variants matched after
four whitespace characters at a line start, each exactly once, in order
of first occurrence (the returned list is duplicate-free, is a sublist of
the raw match list, and has the same members). -/
theorem C10_variant_parsing (text : List Char) :
    (findFrom enumHeader text = none →
      parse_request_payload_variants text = none)
    ∧ (∀ b0, findFrom enumHeader text = some b0 →
        truncAtCloseBrace (afterBrace b0) = none →
        parse_request_payload_variants text = none)
    ∧ (∀ b0 b, findFrom enumHeader text = some b0 →
        truncAtCloseBrace (afterBrace b0) = some b →
        parse_request_payload_variants text
            = some (dedupLoop [] (scanVariants b))
        ∧ (dedupLoop [] (scanVariants b)).Nodup
        ∧ (dedupLoop [] (scanVariants b)).Sublist (scanVariants b)
        ∧ (∀ v, v ∈ dedupLoop [] (scanVariants b) ↔ v ∈ scanVariants b)) := by
  refine ⟨?_, ?_, ?_⟩
  · intro h
    unfold parse_request_payload_variants enumBody
    rw [h]
    rfl
  · intro b0 h1 h2
    unfold parse_request_payload_variants enumBody
    rw [h1]
    show Option.map _ (truncAtCloseBrace (afterBrace b0)) = none
    rw [h2]
    rfl
  · intro b0 b h1 h2
    refine ⟨?_, nodup_dedupLoop _ _, dedupLoop_sublist _ _, ?_⟩
    · unfold parse_request_payload_variants enumBody
      rw [h1]
      show Option.map _ (truncAtCloseBrace (afterBrace b0)) = _
      rw [h2]
      rfl
    · intro v
      rw [mem_dedupLoop]
      simp

/-- C10 witness: a body with variants A, B, A yields exactly A then B. -/
theorem C10_variant_parsing_witness :
    parse_request_payload_variants
      ("pub enum RequestPayload ".toList ++ '\x7b' :: '\n'
        :: "    A,\n    B,\n    A,\n".toList ++ '\x7d' :: '\n' :: [])
      = some ["A".toList, "B".toList] := by
  have h := ((C10_variant_parsing
      ("pub enum RequestPayload ".toList ++ '\x7b' :: '\n'
        :: "    A,\n    B,\n    A,\n".toList ++ '\x7d' :: '\n' :: [])).2.2
    ("pub enum RequestPayload ".toList ++ '\x7b' :: '\n'
        :: "    A,\n    B,\n    A,\n".toList ++ '\x7d' :: '\n' :: [])
    ('\n' :: "    A,\n    B,\n    A,".toList)
    (by decide) (by decide)).1
  rw [h]
  decide

/-- C9: in check mode `main` never writes and leaves the document alone
(first conjunct, including the abort case, where the splice error ends
the process before any write); when the splice succeeds, check mode exits
1 exactly when the freshly rendered document differs from the original,
and an unchanged document makes both modes exit 0 without writing. -/
theorem C9_check_mode (original portBlock dtoBlock : List Char) :
    (∀ res, main_model true original portBlock dtoBlock = some res →
        res.wrote = false ∧ res.fileContent = original)
    ∧ (∀ u, renderedDoc original portBlock dtoBlock = some u →
        main_model true original portBlock dtoBlock
          = some ⟨false, original, if u = original then 0 else 1⟩
        ∧ (u = original →
            main_model false original portBlock dtoBlock
              = some ⟨false, original, 0⟩)) := by
  constructor
  · intro res h
    unfold main_model at h
    cases hrd : renderedDoc original portBlock dtoBlock with
    | none => rw [hrd] at h; exact absurd h (by simp)
    | some u =>
      rw [hrd] at h
      simp only [Option.map_some'] at h
      have heq := Option.some.inj h
      by_cases he : u = original
      · simp only [if_pos he] at heq
        rw [← heq]
        exact ⟨rfl, rfl⟩
      · simp [he] at heq
        rw [← heq]
        exact ⟨rfl, rfl⟩
  · intro u hu
    constructor
    · unfold main_model
      rw [hu]
      by_cases he : u = original
      · simp [he]
      · simp [he]
    · intro he
      unfold main_model
      rw [hu]
      simp [he]

/-- C9 witness: a stale document in check mode exits 1 without writing; a
current document exits 0 in both modes without writing. -/
theorem C9_check_mode_witness :
    main_model true
      "%% PORT TAXONOMY %%\nold\n%% /PORT TAXONOMY %%\n%% DTO OWNERSHIP %%\nold\n%% /DTO OWNERSHIP %%".toList
      "P".toList "D".toList
      = some ⟨false,
          "%% PORT TAXONOMY %%\nold\n%% /PORT TAXONOMY %%\n%% DTO OWNERSHIP %%\nold\n%% /DTO OWNERSHIP %%".toList,
          1⟩
    ∧ main_model false
      "%% PORT TAXONOMY %%\n\nP\n\n%% /PORT TAXONOMY %%\n%% DTO OWNERSHIP %%\n\nD\n\n%% /DTO OWNERSHIP %%".toList
      "P".toList "D".toList
      = some ⟨false,
          "%% PORT TAXONOMY %%\n\nP\n\n%% /PORT TAXONOMY %%\n%% DTO OWNERSHIP %%\n\nD\n\n%% /DTO OWNERSHIP %%".toList,
          0⟩ := by
  constructor
  · have h := ((C9_check_mode
        "%% PORT TAXONOMY %%\nold\n%% /PORT TAXONOMY %%\n%% DTO OWNERSHIP %%\nold\n%% /DTO OWNERSHIP %%".toList
        "P".toList "D".toList).2
      "%% PORT TAXONOMY %%\n\nP\n\n%% /PORT TAXONOMY %%\n%% DTO OWNERSHIP %%\n\nD\n\n%% /DTO OWNERSHIP %%".toList
      (by decide)).1
    rw [h]
    decide
  · exact ((C9_check_mode
        "%% PORT TAXONOMY %%\n\nP\n\n%% /PORT TAXONOMY %%\n%% DTO OWNERSHIP %%\n\nD\n\n%% /DTO OWNERSHIP %%".toList
        "P".toList "D".toList).2
      "%% PORT TAXONOMY %%\n\nP\n\n%% /PORT TAXONOMY %%\n%% DTO OWNERSHIP %%\n\nD\n\n%% /DTO OWNERSHIP %%".toList
      (by decide)).2 rfl

theorem isStartLine_self (sm : List Char) : isStartLine sm sm = true := by
  simp [isStartLine, List.drop_length]

theorem isEndLine_self (em : List Char) : isEndLine em em = true := by
  unfold isEndLine
  rw [List.any_eq_true]
  refine ⟨0, List.mem_range.mpr (by omega), ?_⟩
  simp [List.drop_length]

theorem isEndLine_nil (em : List Char) (h : em ≠ []) : isEndLine em [] = false := by
  cases em with
  | nil => exact absurd rfl h
  | cons c t => simp [isEndLine, List.isPrefixOf]

theorem mkEnd_ne_nil (em : List Char) : mkEnd em ≠ [] := by simp [mkEnd]

theorem no_newline_mkStart {m : List Char} (h : '\n' ∉ m) : '\n' ∉ mkStart m := by
  unfold mkStart
  intro hc
  rw [List.mem_append, List.mem_append] at hc
  rcases hc with (hc | hc) | hc
  · exact absurd hc (by decide)
  · exact h hc
  · exact absurd hc (by decide)

theorem no_newline_mkEnd {m : List Char} (h : '\n' ∉ m) : '\n' ∉ mkEnd m := by
  unfold mkEnd
  intro hc
  rw [List.mem_append, List.mem_append] at hc
  rcases hc with (hc | hc) | hc
  · exact absurd hc (by decide)
  · exact h hc
  · exact absurd hc (by decide)

theorem any_of_drop {p : List Char → Bool} {ls : List (List Char)} {n : Nat}
    (h : (ls.drop n).any p = true) : ls.any p = true := by
  rw [List.any_eq_true] at h ⊢
  obtain ⟨x, hx, hpx⟩ := h
  exact ⟨x, List.drop_subset n ls hx, hpx⟩

theorem dropWhile_idem (p : α → Bool) (l : List α) :
    (l.dropWhile p).dropWhile p = l.dropWhile p := by
  induction l with
  | nil => rfl
  | cons c t ih =>
    by_cases hp : p c = true
    · rw [List.dropWhile_cons_of_pos hp]
      exact ih
    · rw [List.dropWhile_cons_of_neg hp, List.dropWhile_cons_of_neg hp]

theorem findStartIdx_lt_length {sm em : List Char} :
    ∀ {ls : List (List Char)} {a : Nat},
      findStartIdx sm em ls = some a → a < ls.length := by
  intro ls
  induction ls with
  | nil => intro a h; rw [findStartIdx] at h; exact absurd h (by simp)
  | cons l rest ih =>
    intro a h
    rw [findStartIdx] at h
    split at h
    · have ha : a = 0 := (Option.some.inj h).symm
      subst ha
      simp
    · cases hr : findStartIdx sm em rest with
      | none => rw [hr] at h; exact absurd h (by simp)
      | some a2 =>
        rw [hr] at h
        simp only [Option.map_some'] at h
        have ha : a2 + 1 = a := Option.some.inj h
        subst ha
        have := ih hr
        simp only [List.length_cons]
        omega

theorem findStartIdx_any_end {sm em : List Char} :
    ∀ {ls : List (List Char)} {a : Nat}, findStartIdx sm em ls = some a →
      ((ls.drop (a + 1)).any (isEndLine em)) = true := by
  intro ls
  induction ls with
  | nil => intro a h; rw [findStartIdx] at h; exact absurd h (by simp)
  | cons l rest ih =>
    intro a h
    rw [findStartIdx] at h
    split at h
    · rename_i hcond
      have ha : a = 0 := (Option.some.inj h).symm
      subst ha
      have hc2 : isStartLine sm l = true ∧ rest.any (isEndLine em) = true := by
        simpa using hcond
      simpa using hc2.2
    · cases hr : findStartIdx sm em rest with
      | none => rw [hr] at h; exact absurd h (by simp)
      | some a2 =>
        rw [hr] at h
        simp only [Option.map_some'] at h
        have ha : a2 + 1 = a := Option.some.inj h
        subst ha
        simpa using ih hr

theorem findStartIdx_take_not_start {sm em : List Char} :
    ∀ {ls : List (List Char)} {a : Nat}, findStartIdx sm em ls = some a →
      ∀ l ∈ ls.take a, isStartLine sm l = false := by
  intro ls
  induction ls with
  | nil => intro a h; rw [findStartIdx] at h; exact absurd h (by simp)
  | cons l rest ih =>
    intro a h
    rw [findStartIdx] at h
    split at h
    · have ha : a = 0 := (Option.some.inj h).symm
      subst ha
      simp
    · rename_i hcond
      cases hr : findStartIdx sm em rest with
      | none => rw [hr] at h; exact absurd h (by simp)
      | some a2 =>
        rw [hr] at h
        simp only [Option.map_some'] at h
        have ha : a2 + 1 = a := Option.some.inj h
        subst ha
        intro x hx
        rw [List.take_succ_cons, List.mem_cons] at hx
        rcases hx with rfl | hx
        · have hany : rest.any (isEndLine em) = true :=
            any_of_drop (findStartIdx_any_end hr)
          cases hsl : isStartLine sm x with
          | false => rfl
          | true => exact absurd (by rw [hsl, hany]; rfl) hcond
        · exact ih hr x hx

theorem findStartIdx_append {sm em : List Char} (pre suf : List (List Char))
    (hpre : ∀ l ∈ pre, isStartLine sm l = false) :
    findStartIdx sm em (pre ++ suf)
      = (findStartIdx sm em suf).map (· + pre.length) := by
  induction pre with
  | nil => cases h : findStartIdx sm em suf <;> simp [h]
  | cons l pre ih =>
    rw [List.cons_append, findStartIdx, hpre l (by simp)]
    rw [ih (fun x hx => hpre x (by simp [hx]))]
    simp only [Bool.false_and, Bool.false_eq_true, if_false]
    cases findStartIdx sm em suf with
    | none => simp
    | some a => simp [Nat.add_assoc]

theorem findEndIdx_append {em : List Char} (xs ys : List (List Char))
    (y : List Char) (hxs : ∀ l ∈ xs, isEndLine em l = false)
    (hy : isEndLine em y = true) :
    findEndIdx em (xs ++ y :: ys) = some xs.length := by
  induction xs with
  | nil =>
    rw [List.nil_append, findEndIdx, if_pos hy]
    rfl
  | cons x xs ih =>
    rw [List.cons_append, findEndIdx, hxs x (by simp)]
    rw [if_neg (by simp), ih (fun l hl => hxs l (by simp [hl]))]
    simp

theorem spliceLines_shape {sm em repl : List Char} {ls ls' : List (List Char)}
    (h : spliceLines sm em repl ls = some ls') :
    ∃ a i, findStartIdx sm em ls = some a
      ∧ findEndIdx em (ls.drop (a + 1)) = some i
      ∧ ls' = ls.take a ++ [sm] ++ [[]] ++ splitLines (pyRstrip repl) ++ [[]]
          ++ [em] ++ ((ls.drop (a + 1)).drop (i + 1)).dropWhile allWsLine := by
  unfold spliceLines at h
  cases h1 : findStartIdx sm em ls with
  | none => rw [h1] at h; exact absurd h (by simp)
  | some a =>
    rw [h1, Option.some_bind] at h
    cases h2 : findEndIdx em (ls.drop (a + 1)) with
    | none => rw [h2] at h; exact absurd h (by simp)
    | some i =>
      rw [h2, Option.map_some'] at h
      exact ⟨a, i, rfl, h2, (Option.some.inj h).symm⟩

theorem spliceLines_idem {sm em repl : List Char} {ls ls' : List (List Char)}
    (hem : em ≠ [])
    (hrepl : ∀ l ∈ splitLines (pyRstrip repl), isEndLine em l = false)
    (h : spliceLines sm em repl ls = some ls') :
    spliceLines sm em repl ls' = some ls' := by
  obtain ⟨a, i, h1, h2, h3⟩ := spliceLines_shape h
  have hlen : (ls.take a).length = a := by
    rw [List.length_take]
    have := findStartIdx_lt_length h1
    omega
  have hnostart : ∀ l ∈ ls.take a, isStartLine sm l = false :=
    findStartIdx_take_not_start h1
  have hshape : ls' = ls.take a
      ++ (sm :: ([] :: (splitLines (pyRstrip repl)
        ++ ([] :: (em :: ((ls.drop (a + 1)).drop (i + 1)).dropWhile allWsLine))))) := by
    rw [h3]
    simp [List.append_assoc]
  have hfs : findStartIdx sm em ls' = some a := by
    rw [hshape, findStartIdx_append _ _ hnostart]
    rw [show findStartIdx sm em
        (sm :: ([] :: (splitLines (pyRstrip repl)
          ++ ([] :: (em :: ((ls.drop (a + 1)).drop (i + 1)).dropWhile allWsLine)))))
        = some 0 from by
      rw [findStartIdx, if_pos (by
        rw [isStartLine_self, Bool.true_and, List.any_eq_true]
        exact ⟨em, by simp, isEndLine_self em⟩)]]
    simp [hlen]
  have hdrop : ls'.drop (a + 1)
      = [] :: (splitLines (pyRstrip repl)
        ++ ([] :: (em :: ((ls.drop (a + 1)).drop (i + 1)).dropWhile allWsLine))) := by
    rw [hshape]
    rw [show ls.take a
        ++ (sm :: ([] :: (splitLines (pyRstrip repl)
          ++ ([] :: (em :: ((ls.drop (a + 1)).drop (i + 1)).dropWhile allWsLine)))))
      = (ls.take a ++ [sm])
        ++ ([] :: (splitLines (pyRstrip repl)
          ++ ([] :: (em :: ((ls.drop (a + 1)).drop (i + 1)).dropWhile allWsLine))))
      from by simp]
    exact List.drop_left' (by simp [hlen])
  have hfe : findEndIdx em (ls'.drop (a + 1))
      = some ((splitLines (pyRstrip repl)).length + 2) := by
    rw [hdrop]
    rw [show ([] :: (splitLines (pyRstrip repl)
        ++ ([] :: (em :: ((ls.drop (a + 1)).drop (i + 1)).dropWhile allWsLine))))
      = (([] :: splitLines (pyRstrip repl)) ++ [([] : List Char)])
        ++ (em :: ((ls.drop (a + 1)).drop (i + 1)).dropWhile allWsLine)
      from by simp]
    rw [findEndIdx_append _ _ _ (by
      intro l hl
      rw [List.mem_append, List.mem_cons] at hl
      rcases hl with (hl | hl) | hl
      · subst hl
        exact isEndLine_nil em hem
      · exact hrepl l hl
      · rw [List.mem_singleton] at hl
        subst hl
        exact isEndLine_nil em hem) (isEndLine_self em)]
    simp
  unfold spliceLines
  rw [hfs, Option.some_bind, hfe, Option.map_some']
  have htake : ls'.take a = ls.take a := by
    rw [hshape]
    exact List.take_left' hlen
  have hdrop2 : (ls'.drop (a + 1)).drop
        ((splitLines (pyRstrip repl)).length + 2 + 1)
      = ((ls.drop (a + 1)).drop (i + 1)).dropWhile allWsLine := by
    rw [hdrop]
    rw [show ([] :: (splitLines (pyRstrip repl)
        ++ ([] :: (em :: ((ls.drop (a + 1)).drop (i + 1)).dropWhile allWsLine))))
      = (([] :: splitLines (pyRstrip repl)) ++ [([] : List Char)] ++ [em])
        ++ ((ls.drop (a + 1)).drop (i + 1)).dropWhile allWsLine
      from by simp]
    exact List.drop_left' (by simp)
  rw [htake, hdrop2, dropWhile_idem]
  rw [← h3]

/-- C2 counterexample: when the replacement itself contains an end-marker
line, a successful splice is not a fixed point of a second splice with
the same markers and replacement: the second call matches a shorter span
(the lazy match stops at the end-marker line inside the freshly spliced
replacement) and produces a different document. -/
theorem C2_counterexample :
    replace_block "%% L %%\nX\n%% /L %%".toList "L".toList "L".toList
        "%% /L %%".toList
      = some "%% L %%\n\n%% /L %%\n\n%% /L %%".toList
    ∧ replace_block "%% L %%\n\n%% /L %%\n\n%% /L %%".toList "L".toList
        "L".toList "%% /L %%".toList
      = some "%% L %%\n\n%% /L %%\n\n%% /L %%\n%% /L %%".toList
    ∧ "%% L %%\n\n%% /L %%\n\n%% /L %%\n%% /L %%".toList
        ≠ "%% L %%\n\n%% /L %%\n\n%% /L %%".toList := by
  refine ⟨by decide, by decide, by decide⟩

/-- C2 (amended): splicing is idempotent for every document, marker pair
and replacement whose rstripped content contains no line on which the
end-marker pattern can match (and whose marker labels contain no
newline): a successful `replace_block` output is returned unchanged by a
second `replace_block` with the same markers and replacement. -/
theorem C2_splice_idempotent (text sm em repl out : List Char)
    (hsm : '\n' ∉ sm) (hem : '\n' ∉ em)
    (hrepl : ∀ l ∈ splitLines (pyRstrip repl), isEndLine (mkEnd em) l = false)
    (h : replace_block text sm em repl = some out) :
    replace_block out sm em repl = some out := by
  unfold replace_block at h ⊢
  cases hsp : spliceLines (mkStart sm) (mkEnd em) repl (splitLines text) with
  | none => rw [hsp] at h; exact absurd h (by simp)
  | some ls' =>
    rw [hsp, Option.map_some'] at h
    have hout : out = joinLines ls' := (Option.some.inj h).symm
    obtain ⟨a, i, h1, h2, h3⟩ := spliceLines_shape hsp
    have hnl : ∀ l ∈ ls', '\n' ∉ l := by
      rw [h3]
      simp only [List.forall_mem_append]
      refine ⟨⟨⟨⟨⟨⟨?_, ?_⟩, ?_⟩, ?_⟩, ?_⟩, ?_⟩, ?_⟩
      · intro l hl
        exact no_newline_of_mem_splitLines text l (List.take_subset _ _ hl)
      · intro l hl
        rw [List.mem_singleton] at hl
        subst hl
        exact no_newline_mkStart hsm
      · intro l hl
        rw [List.mem_singleton] at hl
        subst hl
        simp
      · intro l hl
        exact no_newline_of_mem_splitLines (pyRstrip repl) l hl
      · intro l hl
        rw [List.mem_singleton] at hl
        subst hl
        simp
      · intro l hl
        rw [List.mem_singleton] at hl
        subst hl
        exact no_newline_mkEnd hem
      · intro l hl
        refine no_newline_of_mem_splitLines text l ?_
        exact List.drop_subset _ _ (List.drop_subset _ _
          ((List.dropWhile_sublist allWsLine).subset hl))
    have hne : ls' ≠ [] := by
      rw [h3]
      simp
    have hsplit : splitLines out = ls' := by
      rw [hout]
      exact splitLines_joinLines ls' hne hnl
    rw [hsplit, spliceLines_idem (mkEnd_ne_nil em) hrepl hsp,
      Option.map_some', hout]

/-- C2 witness: a two-line replacement free of marker lines splices in,
and splicing the output again returns it unchanged. -/
theorem C2_splice_idempotent_witness :
    replace_block "pre\n%% L %%\n\nhello\nworld\n\n%% /L %%\npost".toList
        "L".toList "L".toList "hello\nworld".toList
      = some "pre\n%% L %%\n\nhello\nworld\n\n%% /L %%\npost".toList :=
  C2_splice_idempotent "pre\n%% L %%\nold\n%% /L %%\npost".toList "L".toList
    "L".toList "hello\nworld".toList
    "pre\n%% L %%\n\nhello\nworld\n\n%% /L %%\npost".toList
    (by decide) (by decide) (by decide) (by decide)

end Spec2Proof
